import Mathlib

/-!
Shallow embedding of the funding-rate dashboard scripts
(`aave_hl_dashboard.py`, `dashboard.py`, `test_aave_data.py`).

Modelling conventions:
* Timestamps are instants measured in whole minutes since the epoch (`Int`).
  The scripts' datetimes all have at least minute precision and the only
  timezone in play (Asia/Singapore, UTC+8, no DST) is a whole number of
  minutes, so nothing the claims talk about is lost at this granularity.
* Rates are rationals (`ℚ`).  The numeric claims are exact arithmetic
  identities, so ℚ is a faithful carrier for them.
* A pandas `NaN` cell (missing value) is `Option.none`; pandas arithmetic
  propagates `NaN` through `*`, `+`, `-`, which is `Option.map` / the
  strict `optAdd`/`optSub` below, and `Series.mean()` skips `NaN`
  (`skipna=True` default), which is `meanSkipNA` below.
* An HTTP response is an oracle function; `none` models a non-success
  status code, `some batch` a 200 response with parsed body `batch`.
-/

/-- One observation of a companion (AAVE) series: a timestamp and a rate.
Corresponds to one row of the `usdc_df[['timestamp','apyBaseBorrow']]` /
`weth_df[['timestamp','apyBase']]` frames fed to `pd.merge_asof`. -/
structure Sample where
  time : Int
  value : ℚ
deriving DecidableEq, Repr

/-- One row of a Hyperliquid funding frame as built inside
`fetch_hyperliquid_funding`: `time`, `fundingRate` (after
`pd.to_numeric(..., errors='coerce')`, so possibly missing) and the derived
`annualizedFundingRate` column. -/
structure HLRow where
  time : Int
  fundingRate : Option ℚ
  annualizedFundingRate : Option ℚ
deriving DecidableEq, Repr

/- ## Series Normalizer (spec §4.2) -/

/-- `aave_hl_dashboard.py:60` / `dashboard.py:38`:
`batch_df['annualizedFundingRate'] = batch_df['fundingRate'] * 24 * 365 * 100`. -/
def hlAnnualize (fundingRate : ℚ) : ℚ :=
  fundingRate * 24 * 365 * 100

/-- `dashboard.py:100`:
`grouped['Annualized Funding Rate'] = grouped['End Funding Rate'] * 3 * 365 * 100`. -/
def bfxAnnualize (endFundingRate : ℚ) : ℚ :=
  endFundingRate * 3 * 365 * 100

/-- The spec's annualization convention, stated in its own words
(spec §4.2): `annualized = periodic_rate * periods_per_year * 100`. -/
def specAnnualize (periodsPerYear periodicRate : ℚ) : ℚ :=
  periodicRate * periodsPerYear * 100

/-- The raw record inside one Hyperliquid response batch: a millisecond
timestamp (as an instant) and the result of coercing the `fundingRate`
string to a number (`none` when `pd.to_numeric(..., errors='coerce')`
produced `NaN`). -/
def RawHL : Type := Int × Option ℚ

/-- The column assignments at `aave_hl_dashboard.py:58-60` /
`dashboard.py:36-38`: parse the time, coerce the rate, derive the
annualized rate.  `NaN` funding rates give `NaN` annualized rates. -/
def hlNormalize (batch : List RawHL) : List HLRow :=
  batch.map fun r => ⟨r.1, r.2, r.2.map hlAnnualize⟩

/- ## Timezone representations entering `merge_data` (for C2) -/

/-- A pandas timezone-aware datetime value: the absolute instant together
with the UTC offset (in minutes) of the zone it is displayed in. -/
structure AwareTime where
  instant : Int
  offsetMin : Int
deriving DecidableEq, Repr

/-- Asia/Singapore is UTC+8 with no daylight saving: 480 minutes. -/
def sgtOffset : Int := 480

/-- `pd.to_datetime(x, utc=True)` (`aave_hl_dashboard.py:17`): tag the
instant with UTC. -/
def toDatetimeUtc (instant : Int) : AwareTime := ⟨instant, 0⟩

/-- `.dt.tz_convert(tz)` (`aave_hl_dashboard.py:18`): same instant, new
display zone. -/
def tzConvert (offset : Int) (t : AwareTime) : AwareTime :=
  ⟨t.instant, offset⟩

/-- `.dt.tz_localize(None)` (`aave_hl_dashboard.py:72-73`): drop the zone
tag, keeping the local wall-clock reading, i.e. instant + offset. -/
def tzLocalizeNone (t : AwareTime) : Int :=
  t.instant + t.offsetMin

/-- `pd.to_datetime(ms, unit='ms')` (`aave_hl_dashboard.py:58`): a naive
datetime whose wall-clock reading is the UTC reading of the instant. -/
def toDatetimeUnitMs (instant : Int) : Int := instant

/-- `create_df` (`aave_hl_dashboard.py:15-19`) on an AAVE sample at
absolute instant `t`: parse as UTC, then convert to Asia/Singapore. -/
def createDfTimestamp (instant : Int) : AwareTime :=
  tzConvert sgtOffset (toDatetimeUtc instant)

/-- The naive join-key value `merge_data` (`aave_hl_dashboard.py:72-73`)
produces for an AAVE sample at absolute instant `t`:
`create_df`'s timestamp after `.dt.tz_localize(None)`. -/
def mergeDataAaveKey (instant : Int) : Int :=
  tzLocalizeNone (createDfTimestamp instant)

/-- The naive join-key value `merge_data` compares on the Hyperliquid side
for a sample at absolute instant `t`: the `time` column is naive UTC from
`pd.to_datetime(..., unit='ms')` (`aave_hl_dashboard.py:58`) and
`merge_data` uses it unchanged. -/
def mergeDataHlKey (instant : Int) : Int :=
  toDatetimeUnitMs instant

/- ## Metric Deriver (spec §4.5; `aave_hl_dashboard.py:114-126`) -/

/-- One row of `merged_df` as returned by `merge_data`: the reference
(Hyperliquid) columns plus the two backward-matched AAVE columns, either
of which can be `NaN` when no AAVE sample was at or before the row's
time. -/
structure ARow where
  time : Int
  fundingRate : Option ℚ
  annualizedFundingRate : Option ℚ
  usdc_borrow_rate : Option ℚ
  weth_lend_rate : Option ℚ
deriving DecidableEq, Repr

/-- One row of `merged_df` after the module-level derived-column block
(`aave_hl_dashboard.py:114-119`).  Note `annualizedFundingRate` is the
overwritten (leverage-multiplied) column. -/
structure DRow where
  time : Int
  fundingRate : Option ℚ
  annualizedFundingRate : Option ℚ
  usdc_borrow_rate : Option ℚ
  weth_lend_rate : Option ℚ
  adjusted_usdc_borrow_rate : Option ℚ
  adjusted_weth_lend_rate : Option ℚ
  arb_return : Option ℚ
deriving DecidableEq, Repr

/-- pandas `series * scalar`: `NaN` stays `NaN`. -/
def optScale (a : Option ℚ) (k : ℚ) : Option ℚ := a.map (· * k)

/-- pandas `series + series`: `NaN` if either side is `NaN`. -/
def optAdd : Option ℚ → Option ℚ → Option ℚ
  | some a, some b => some (a + b)
  | _, _ => none

/-- pandas `series - series`: `NaN` if either side is `NaN`. -/
def optSub : Option ℚ → Option ℚ → Option ℚ
  | some a, some b => some (a - b)
  | _, _ => none

/-- The derived-column block `aave_hl_dashboard.py:114-119`, row-wise:
```
merged_df['adjusted_usdc_borrow_rate'] = merged_df['usdc_borrow_rate'] * leverage * ltv
merged_df['adjusted_weth_lend_rate']   = merged_df['weth_lend_rate'] * leverage
merged_df['annualizedFundingRate']     = merged_df['annualizedFundingRate'] * leverage
merged_df['arb_return'] = merged_df['annualizedFundingRate']
                        + merged_df['adjusted_weth_lend_rate']
                        - merged_df['adjusted_usdc_borrow_rate']
```
(the `arb_return` line reads the already-overwritten
`annualizedFundingRate`). -/
def deriveRow (leverage ltv : ℚ) (r : ARow) : DRow :=
  let adjustedBorrow := optScale (optScale r.usdc_borrow_rate leverage) ltv
  let adjustedLend := optScale r.weth_lend_rate leverage
  let annualized := optScale r.annualizedFundingRate leverage
  { time := r.time
    fundingRate := r.fundingRate
    annualizedFundingRate := annualized
    usdc_borrow_rate := r.usdc_borrow_rate
    weth_lend_rate := r.weth_lend_rate
    adjusted_usdc_borrow_rate := adjustedBorrow
    adjusted_weth_lend_rate := adjustedLend
    arb_return := optSub (optAdd annualized adjustedLend) adjustedBorrow }

/-- The whole-table derivation: pandas column arithmetic is row-wise. -/
def deriveTable (leverage ltv : ℚ) (rows : List ARow) : List DRow :=
  rows.map (deriveRow leverage ltv)

/-- pandas `Series.mean()` with its default `skipna=True`
(`aave_hl_dashboard.py:123-126`): the mean of the non-`NaN` entries, or
`NaN` (here `none`) when every entry is `NaN` or the series is empty. -/
def meanSkipNA (l : List (Option ℚ)) : Option ℚ :=
  let p := l.filterMap id
  if p.length = 0 then none else some (p.sum / p.length)

/-- The spec's description of the displayed average, in its own words
(spec §8): "displayed average equals the mean of present values only, or
'no data' if none present". -/
def specPresentMean (l : List (Option ℚ)) : Option ℚ :=
  match l.filterMap id with
  | [] => none
  | p => some (p.sum / p.length)

/-- `hyperliquid_avg = merged_df['annualizedFundingRate'].mean()`
(`aave_hl_dashboard.py:123`), computed on the derived table. -/
def hyperliquidAvg (t : List DRow) : Option ℚ :=
  meanSkipNA (t.map (·.annualizedFundingRate))

/-- `adjusted_weth_lend_avg` (`aave_hl_dashboard.py:124`). -/
def adjustedWethLendAvg (t : List DRow) : Option ℚ :=
  meanSkipNA (t.map (·.adjusted_weth_lend_rate))

/-- `adjusted_usdc_borrow_avg` (`aave_hl_dashboard.py:125`). -/
def adjustedUsdcBorrowAvg (t : List DRow) : Option ℚ :=
  meanSkipNA (t.map (·.adjusted_usdc_borrow_rate))

/-- `arb = merged_df['arb_return'].mean()` (`aave_hl_dashboard.py:126`). -/
def arbAvg (t : List DRow) : Option ℚ :=
  meanSkipNA (t.map (·.arb_return))

/- ## As-Of Aligner (spec §4.4) -/

/-- `sort_values('timestamp')` / `sort_values('time')`: sorting by the
time key.  `pandas.sort_values` is an unstable sort by default; any
correct sort models it, so we use Mathlib's insertion sort. -/
def sortSamples (l : List Sample) : List Sample :=
  List.insertionSort (fun a b => a.time ≤ b.time) l

/-- `sort_values('time')` on the Hyperliquid frame
(`aave_hl_dashboard.py:76`). -/
def sortHL (l : List HLRow) : List HLRow :=
  List.insertionSort (fun a b => a.time ≤ b.time) l

/-- `pd.merge_asof(..., direction='backward')` match for one left key `t`
against a right frame sorted ascending by time: the last right row whose
time is `≤ t`, or no match when there is none. -/
def asofBackward (t : Int) (right : List Sample) : Option Sample :=
  (right.filter (fun s => s.time ≤ t)).getLast?

/-- `pd.merge_asof(..., direction='nearest')` match for one left key `t`:
the right row minimizing `|time - t|`; on a distance tie pandas keeps the
backward (earlier) candidate, which for a fold over an ascending right
frame means keeping the earlier row. -/
def asofNearest (t : Int) (right : List Sample) : Option Sample :=
  right.foldl
    (fun acc s =>
      match acc with
      | none => some s
      | some b => if (s.time - t).natAbs < (b.time - t).natAbs then some s else acc)
    none

/-- `merge_data` (`aave_hl_dashboard.py:70-87`): sort the Hyperliquid
frame by `time`, sort each AAVE frame by `timestamp`, backward-match the
USDC `apyBaseBorrow` and WETH `apyBase` columns onto the Hyperliquid
grid, rename them to `usdc_borrow_rate` / `weth_lend_rate`, and drop the
matched `timestamp_x` / `timestamp_y` key columns.  The inputs carry the
naive key values the script built (see `mergeDataAaveKey` /
`mergeDataHlKey` for what those values are). -/
def mergeData (hl : List HLRow) (usdc weth : List Sample) : List ARow :=
  (sortHL hl).map fun h =>
    { time := h.time
      fundingRate := h.fundingRate
      annualizedFundingRate := h.annualizedFundingRate
      usdc_borrow_rate := (asofBackward h.time (sortSamples usdc)).map (·.value)
      weth_lend_rate := (asofBackward h.time (sortSamples weth)).map (·.value) }

/-- One row of `combined_df` (`dashboard.py:164-166`): the Hyperliquid
reference columns, the matched Bitfinex `Hour Interval` key and
`Annualized Funding Rate` value (kept by `merge_asof`), and the derived
`Funding Rate Difference`. -/
structure CombinedRow where
  time : Int
  annualizedFundingRate : Option ℚ
  hourInterval : Option Int
  bfxAnnualizedRate : Option ℚ
  fundingRateDifference : Option ℚ
deriving DecidableEq, Repr

/-- The module-level combined merge of `dashboard.py:164-166`:
`pd.merge_asof(hyperliquid_df[['time','annualizedFundingRate']],
bitfinex_df[['Hour Interval','Annualized Funding Rate']], left_on='time',
right_on='Hour Interval', direction='nearest')` followed by
`combined_df['Funding Rate Difference'] = annualizedFundingRate -
Annualized Funding Rate`.  The Bitfinex side is passed as `Sample`s whose
`time` is the `Hour Interval` and whose `value` is the
`Annualized Funding Rate`. -/
def combinedMerge (hl : List (Int × Option ℚ)) (bfx : List Sample) :
    List CombinedRow :=
  hl.map fun h =>
    let m := asofNearest h.1 bfx
    { time := h.1
      annualizedFundingRate := h.2
      hourInterval := m.map (·.time)
      bfxAnnualizedRate := m.map (·.value)
      fundingRateDifference := optSub h.2 (m.map (·.value)) }

/- ## Paginated Fetcher: Hyperliquid loop (spec §4.1)
(`aave_hl_dashboard.py:39-67`, `dashboard.py:25-45`) -/

/-- The sequence of `(startTime, endTime)` request windows generated by
the `while current_start_time < end_time` loop: each window is
`[cursor, min (cursor + maxw) endT)` and the cursor advances to the
window's end.  The loop makes at most `(endT - cursor).toNat` iterations
because each iteration advances the cursor by at least one unit when
`0 < maxw`, so that bound is used as structural fuel; `hlWindows_eq`
below proves the defining equation of the `while` loop. -/
def hlWindowsGo (maxw endT : Int) : Nat → Int → List (Int × Int)
  | 0, _ => []
  | n + 1, cursor =>
    if cursor < endT ∧ 0 < maxw then
      (cursor, min (cursor + maxw) endT) ::
        hlWindowsGo maxw endT n (min (cursor + maxw) endT)
    else []

/-- The request windows of `fetch_hyperliquid_funding` for a scan of
`[cursor, endT)` with window size `maxw`. -/
def hlWindows (maxw cursor endT : Int) : List (Int × Int) :=
  hlWindowsGo maxw endT (endT - cursor).toNat cursor

/-- The successful response batches the loop accumulates: one normalized
batch per window until the first non-success response (`else: ... break`,
`aave_hl_dashboard.py:62-64`), which discards the remaining windows. -/
def hlBatches (resp : Int → Int → Option (List RawHL)) :
    List (Int × Int) → List (List HLRow)
  | [] => []
  | (a, b) :: rest =>
    match resp a b with
    | some batch => hlNormalize batch :: hlBatches resp rest
    | none => []

/-- `final_df` at the end of the loop:
`pd.concat([final_df, batch_df], ignore_index=True)` over the accumulated
batches.  This is the frame the aave-variant
`fetch_hyperliquid_funding` returns. -/
def hlFetchRows (resp : Int → Int → Option (List RawHL))
    (ws : List (Int × Int)) : List HLRow :=
  (hlBatches resp ws).flatten

/-- The aave-variant Hyperliquid fetcher
(`aave_hl_dashboard.py:39-67`) as a function of the response oracle and
the scan range. -/
def aaveHlFetch (resp : Int → Int → Option (List RawHL))
    (maxw start endT : Int) : List HLRow :=
  hlFetchRows resp (hlWindows maxw start endT)

/- ## The dashboard-variant fetcher and its trailing tz conversion -/

/-- The state of `final_df` in `dashboard.py`'s
`fetch_hyperliquid_funding`: `pd.DataFrame()` starts with **no columns**;
concatenating a successful batch brings in the `time` column.
`hasTimeCol` records whether any successful batch has been concatenated. -/
structure HLFrame where
  hasTimeCol : Bool
  rows : List HLRow
deriving DecidableEq, Repr

/-- The `while` loop of `dashboard.py:25-45` over the window list:
accumulate normalized batches, break on the first failed response. -/
def dashHlLoop (resp : Int → Int → Option (List RawHL)) :
    List (Int × Int) → HLFrame → HLFrame
  | [], acc => acc
  | (a, b) :: rest, acc =>
    match resp a b with
    | some batch => dashHlLoop resp rest ⟨true, acc.rows ++ hlNormalize batch⟩
    | none => acc

/-- `convert_to_gmt8(df, 'time')` (`dashboard.py:13-16`):
`df['time'].dt.tz_localize('UTC').dt.tz_convert('Asia/Singapore')` keeps
every instant unchanged (it only retags the display zone), but indexing
`df['time']` on a frame with no `time` column raises `KeyError`. -/
def convertToGmt8 (f : HLFrame) : Except String (List HLRow) :=
  if f.hasTimeCol then Except.ok f.rows else Except.error "KeyError: time"

/-- `dashboard.py`'s `fetch_hyperliquid_funding` (`dashboard.py:19-48`):
run the pagination loop starting from the empty `pd.DataFrame()`, then
apply `convert_to_gmt8(final_df, 'time')`. -/
def dashHlFetch (resp : Int → Int → Option (List RawHL))
    (maxw start endT : Int) : Except String (List HLRow) :=
  convertToGmt8 (dashHlLoop resp (hlWindows maxw start endT) ⟨false, []⟩)

/- ## Hourly Bucketizer (spec §4.3; `dashboard.py:87-98`) -/

/-- `row.replace(minute=0, second=0, microsecond=0)` (`dashboard.py:87`)
on a minute-resolution instant: floor to the hour. -/
def floorHour (t : Int) : Int := t - t % 60

/-- The samples of `df` falling in the hour bucket keyed `k`, in source
order (pandas `groupby` preserves the within-group order of rows). -/
def hourGroup (l : List Sample) (k : Int) : List Sample :=
  l.filter (fun s => floorHour s.time = k)

/-- The bucket keys produced by `groupby('Hour')` with its default
`sort=True`: the distinct floored hours, in ascending order. -/
def bucketKeys (l : List Sample) : List Int :=
  List.insertionSort (· ≤ ·) (l.map (fun s => floorHour s.time)).dedup

/-- One output row of `grouped = df.groupby('Hour').agg(['first','last'])`
(`dashboard.py:88-98` after the renames): the hour key, the first row of
the group in source order (`MTS_first` / `CURRENT_FUNDING_first`, i.e.
`Interval Start Time` / `Start Funding Rate`) and the last row in source
order (`Interval End Time` / `End Funding Rate`). -/
structure HourBucket where
  hour : Int
  firstTime : Int
  firstValue : ℚ
  lastTime : Int
  lastValue : ℚ
deriving DecidableEq, Repr

/-- Build the bucket row for key `k` from its (never actually empty)
group: pandas `agg('first')`/`agg('last')` take the first/last group row
in source order. -/
def mkBucket (k : Int) (g : List Sample) : Option HourBucket :=
  match g.head?, g.getLast? with
  | some f, some lst => some ⟨k, f.time, f.value, lst.time, lst.value⟩
  | _, _ => none

/-- The full grouping step (`dashboard.py:87-98`): one `HourBucket` per
observed hour, keys ascending.  Hours with no sample produce no row. -/
def bucketize (l : List Sample) : List HourBucket :=
  (bucketKeys l).filterMap (fun k => mkBucket k (hourGroup l k))

/-- The grouped Bitfinex table with its
`Annualized Funding Rate` column (`dashboard.py:100`):
`End Funding Rate * 3 * 365 * 100`.  The trailing
`convert_to_gmt8(grouped, 'Hour Interval')` only retags the display zone
of the hour key, leaving every instant unchanged, so it is not modelled
separately. -/
def bfxGrouped (l : List Sample) : List (HourBucket × ℚ) :=
  (bucketize l).map (fun b => (b, bfxAnnualize b.lastValue))

/- ## Paginated Fetcher: Bitfinex cursor loop (`dashboard.py:58-72`) -/

/-- The `while True` loop of `fetch_bitfinex_funding`.  A response record
is `(MTS, CURRENT_FUNDING)`; the oracle takes the current `start` cursor
and the fixed `end` parameter, `none` modelling a non-success status.
The loop breaks on failure or on an empty body, and otherwise extends
`all_data` and sets `start_time = data[-1][0] + 1`.  The `Nat` fuel makes
the (source-unbounded) loop a total function: `none` means the loop was
still running after `fuel` iterations, so termination for a given oracle
is the statement that some fuel returns `some`. -/
def bfxLoop (page : Int → Int → Option (List (Int × ℚ))) (endT : Int) :
    Nat → Int → Option (List (Int × ℚ))
  | 0, _ => none
  | fuel + 1, cursor =>
    match page cursor endT with
    | none => some []
    | some [] => some []
    | some (d :: ds) =>
      (bfxLoop page endT fuel ((ds.getLastD d).1 + 1)).map ((d :: ds) ++ ·)

/-- `fetch_bitfinex_funding` (`dashboard.py:51-103`) downstream of the
loop: the accumulated `(MTS, CURRENT_FUNDING)` records are framed,
hour-bucketed and annualized.  With an empty accumulation every step of
the pandas chain yields an empty frame, so the result is the empty
grouped table. -/
def bfxFetch (page : Int → Int → Option (List (Int × ℚ))) (endT : Int)
    (fuel : Nat) (start : Int) : Option (List (HourBucket × ℚ)) :=
  (bfxLoop page endT fuel start).map
    (fun l => bfxGrouped (l.map (fun p => ⟨p.1, p.2⟩)))

/-- The sort key used by `sort_values` on sample frames is total. -/
instance : IsTotal Sample (fun a b => a.time ≤ b.time) :=
  ⟨fun a b => le_total a.time b.time⟩

/-- The sort key used by `sort_values` on sample frames is transitive. -/
instance : IsTrans Sample (fun a b => a.time ≤ b.time) :=
  ⟨fun _ _ _ h h' => le_trans h h'⟩

/-- The sort key used on the Hyperliquid frame is total. -/
instance : IsTotal HLRow (fun a b => a.time ≤ b.time) :=
  ⟨fun a b => le_total a.time b.time⟩

/-- The sort key used on the Hyperliquid frame is transitive. -/
instance : IsTrans HLRow (fun a b => a.time ≤ b.time) :=
  ⟨fun _ _ _ h h' => le_trans h h'⟩

/- ## Theorems -/

/-- **C2** (code_bug evidence).  The claim states that at the moment of
the `merge_asof` calls in `merge_data`, the Hyperliquid `time` column and
the AAVE `timestamp` columns denote the same instants under a common
representation.  The code (against its own comment
"Ensure both AAVE and Hyperliquid timestamps are in UTC without
timezones", `aave_hl_dashboard.py:71`) leaves the AAVE key as
Asia/Singapore wall-clock (`instant + 480` minutes, from
`tz_convert('Asia/Singapore')` followed by `tz_localize(None)`) while the
Hyperliquid key is UTC wall-clock (`instant`), so samples taken at the
same instant carry keys 480 minutes apart. -/
theorem c2_mergeData_timezone_mismatch (t : Int) :
    mergeDataAaveKey t = t + 480 ∧ mergeDataHlKey t = t ∧
      mergeDataAaveKey t ≠ mergeDataHlKey t := by
  refine ⟨rfl, rfl, ?_⟩
  simp only [mergeDataAaveKey, mergeDataHlKey, tzLocalizeNone, createDfTimestamp,
    tzConvert, toDatetimeUtc, toDatetimeUnitMs, sgtOffset]
  omega

/-- **C4**.  For a merged row with present borrow, lend and (annualized)
funding inputs and parameters `leverage > 0`, `ltv ∈ [0,1]`, the derived
columns of `aave_hl_dashboard.py:114-119` are exactly the spec's
formulas: `adjusted_borrow = borrow * leverage * ltv`,
`adjusted_lend = lend * leverage`, `adjusted_funding = funding * leverage`
and `arb_return = adjusted_funding + adjusted_lend - adjusted_borrow`
(the scenario instance `arb_return = 22` is the witness below). -/
theorem c4_arb_return_formula (leverage ltv f lend borrow : ℚ)
    (tm : Int) (fr : Option ℚ)
    (hlev : 0 < leverage) (h0 : 0 ≤ ltv) (h1 : ltv ≤ 1) :
    (deriveRow leverage ltv
        ⟨tm, fr, some f, some borrow, some lend⟩).adjusted_usdc_borrow_rate
        = some (borrow * leverage * ltv) ∧
    (deriveRow leverage ltv
        ⟨tm, fr, some f, some borrow, some lend⟩).adjusted_weth_lend_rate
        = some (lend * leverage) ∧
    (deriveRow leverage ltv
        ⟨tm, fr, some f, some borrow, some lend⟩).annualizedFundingRate
        = some (f * leverage) ∧
    (deriveRow leverage ltv
        ⟨tm, fr, some f, some borrow, some lend⟩).arb_return
        = some (f * leverage + lend * leverage - borrow * leverage * ltv) := by
  simp [deriveRow, optScale, optAdd, optSub]

/-- Witness for C4: the spec's scenario `leverage=2.0, ltv=0.5,
funding_rate=10, lend_rate=4, borrow_rate=6` gives `arb_return = 22`. -/
theorem c4_witness :
    (0:ℚ) < 2 ∧ (0:ℚ) ≤ 1/2 ∧ (1:ℚ)/2 ≤ 1 ∧
    (deriveRow 2 (1/2) ⟨0, none, some 10, some 6, some 4⟩).arb_return
      = some 22 := by
  refine ⟨by norm_num, by norm_num, by norm_num, ?_⟩
  have h := (c4_arb_return_formula 2 (1/2) 10 4 6 0 none (by norm_num)
    (by norm_num) (by norm_num)).2.2.2
  rw [h]; norm_num

/-- **C6**.  The Series Normalizer's annualization matches the spec
convention `annualized = periodic_rate * periods_per_year * 100` with
`periods_per_year = 24*365` for the hourly Hyperliquid source
(`aave_hl_dashboard.py:60`, `dashboard.py:38`) and
`periods_per_year = 3*365` for the 8-hourly Bitfinex source
(`dashboard.py:100`). -/
theorem c6_annualization_convention :
    (∀ (batch : List RawHL) (r : HLRow), r ∈ hlNormalize batch →
        r.annualizedFundingRate = r.fundingRate.map (specAnnualize (24*365))) ∧
    (∀ (l : List Sample) (b : HourBucket × ℚ), b ∈ bfxGrouped l →
        b.2 = specAnnualize (3*365) b.1.lastValue) := by
  constructor
  · intro batch r hr
    simp only [hlNormalize, List.mem_map] at hr
    obtain ⟨raw, -, rfl⟩ := hr
    cases raw.2 <;> simp [hlAnnualize, specAnnualize] <;> ring
  · intro l b hb
    simp only [bfxGrouped, List.mem_map] at hb
    obtain ⟨bk, -, rfl⟩ := hb
    simp [bfxAnnualize, specAnnualize]; ring

/-- Witness for C6: a concrete sample through each normalizer. -/
theorem c6_witness :
    ((⟨5, some 1, some 876000⟩ : HLRow) ∈ hlNormalize [(5, some 1)]) ∧
    (⟨5, some 1, some 876000⟩ : HLRow).annualizedFundingRate
      = ((⟨5, some 1, some 876000⟩ : HLRow).fundingRate.map
          (specAnnualize (24*365))) ∧
    ((⟨⟨0, 3, 2, 59, 4⟩, 438000⟩ : HourBucket × ℚ)
        ∈ bfxGrouped [⟨3, 2⟩, ⟨59, 4⟩]) ∧
    ((⟨⟨0, 3, 2, 59, 4⟩, 438000⟩ : HourBucket × ℚ).2
      = specAnnualize (3*365) (⟨⟨0, 3, 2, 59, 4⟩, 438000⟩ :
          HourBucket × ℚ).1.lastValue) := by
  have hm1 : (⟨5, some 1, some 876000⟩ : HLRow) ∈ hlNormalize [(5, some 1)] := by
    norm_num [hlNormalize, hlAnnualize]
  have hbuck : bucketize [⟨3, 2⟩, ⟨59, 4⟩] = [⟨0, 3, 2, 59, 4⟩] := by decide
  have hm2 : (⟨⟨0, 3, 2, 59, 4⟩, 438000⟩ : HourBucket × ℚ)
      ∈ bfxGrouped [⟨3, 2⟩, ⟨59, 4⟩] := by
    rw [bfxGrouped, hbuck]
    norm_num [bfxAnnualize]
  exact ⟨hm1, c6_annualization_convention.1 [(5, some 1)] _ hm1,
    hm2, c6_annualization_convention.2 [⟨3, 2⟩, ⟨59, 4⟩] _ hm2⟩

/-- **C8**.  An absent input (`usdc_borrow_rate`, `weth_lend_rate` or the
funding input `annualizedFundingRate`) makes every derived column that
depends on it absent (pandas `NaN` propagation, never a substituted
zero), and each displayed summary mean (`aave_hl_dashboard.py:123-126`,
pandas `mean()` with `skipna=True`) equals the spec's "mean of present
values only, or no data if none present". -/
theorem c8_absence_propagation_and_present_means :
    (∀ (lev ltv : ℚ) (r : ARow), r.usdc_borrow_rate = none →
        (deriveRow lev ltv r).adjusted_usdc_borrow_rate = none ∧
        (deriveRow lev ltv r).arb_return = none) ∧
    (∀ (lev ltv : ℚ) (r : ARow), r.weth_lend_rate = none →
        (deriveRow lev ltv r).adjusted_weth_lend_rate = none ∧
        (deriveRow lev ltv r).arb_return = none) ∧
    (∀ (lev ltv : ℚ) (r : ARow), r.annualizedFundingRate = none →
        (deriveRow lev ltv r).annualizedFundingRate = none ∧
        (deriveRow lev ltv r).arb_return = none) ∧
    (∀ t : List DRow,
        arbAvg t = specPresentMean (t.map (·.arb_return)) ∧
        hyperliquidAvg t = specPresentMean (t.map (·.annualizedFundingRate)) ∧
        adjustedUsdcBorrowAvg t
          = specPresentMean (t.map (·.adjusted_usdc_borrow_rate)) ∧
        adjustedWethLendAvg t
          = specPresentMean (t.map (·.adjusted_weth_lend_rate))) := by
  have hmean : ∀ l : List (Option ℚ), meanSkipNA l = specPresentMean l := by
    intro l
    cases h : l.filterMap id with
    | nil => simp [meanSkipNA, specPresentMean, h]
    | cons a as => simp [meanSkipNA, specPresentMean, h]
  refine ⟨?_, ?_, ?_, ?_⟩
  · intro lev ltv r h
    constructor <;> simp [deriveRow, optScale, optAdd, optSub, h]
  · intro lev ltv r h
    constructor <;> simp [deriveRow, optScale, optAdd, optSub, h]
  · intro lev ltv r h
    constructor <;> simp [deriveRow, optScale, optAdd, optSub, h]
  · intro t
    exact ⟨hmean _, hmean _, hmean _, hmean _⟩

/-- Witness for C8: a row with an absent borrow input propagates absence
to `adjusted_usdc_borrow_rate` and `arb_return`. -/
theorem c8_witness :
    (⟨0, none, some 1, none, some 2⟩ : ARow).usdc_borrow_rate = none ∧
    ((deriveRow 2 (1/2) ⟨0, none, some 1, none, some 2⟩).adjusted_usdc_borrow_rate
        = none ∧
      (deriveRow 2 (1/2) ⟨0, none, some 1, none, some 2⟩).arb_return = none) :=
  ⟨rfl, c8_absence_propagation_and_present_means.1 2 (1/2) _ rfl⟩

/-- **C10**.  The leverage step overwrites `annualizedFundingRate` in
place (`aave_hl_dashboard.py:116`), leaves every pre-existing column of
the merged table unchanged, makes the displayed
"Average Hyperliquid Funding Rate" the mean of the leverage-multiplied
column, and (witnessed at a generic instance) leaves no column holding
the raw unleveraged annualized funding rate. -/
theorem c10_annualized_overwrite_frame :
    (∀ (lev ltv : ℚ) (r : ARow),
        (deriveRow lev ltv r).annualizedFundingRate
          = optScale r.annualizedFundingRate lev ∧
        (deriveRow lev ltv r).time = r.time ∧
        (deriveRow lev ltv r).fundingRate = r.fundingRate ∧
        (deriveRow lev ltv r).usdc_borrow_rate = r.usdc_borrow_rate ∧
        (deriveRow lev ltv r).weth_lend_rate = r.weth_lend_rate) ∧
    (∀ (lev ltv : ℚ) (rows : List ARow),
        hyperliquidAvg (deriveTable lev ltv rows)
          = meanSkipNA (rows.map (fun r => optScale r.annualizedFundingRate lev))) ∧
    (∃ (lev ltv : ℚ) (r : ARow),
        (deriveRow lev ltv r).fundingRate ≠ r.annualizedFundingRate ∧
        (deriveRow lev ltv r).annualizedFundingRate ≠ r.annualizedFundingRate ∧
        (deriveRow lev ltv r).usdc_borrow_rate ≠ r.annualizedFundingRate ∧
        (deriveRow lev ltv r).weth_lend_rate ≠ r.annualizedFundingRate ∧
        (deriveRow lev ltv r).adjusted_usdc_borrow_rate ≠ r.annualizedFundingRate ∧
        (deriveRow lev ltv r).adjusted_weth_lend_rate ≠ r.annualizedFundingRate ∧
        (deriveRow lev ltv r).arb_return ≠ r.annualizedFundingRate) := by
  refine ⟨?_, ?_, ?_⟩
  · intro lev ltv r
    exact ⟨rfl, rfl, rfl, rfl, rfl⟩
  · intro lev ltv rows
    simp only [hyperliquidAvg, deriveTable, List.map_map]
    rfl
  · exact ⟨2, 1/2, ⟨0, some 1000, some 7, some 1, some 2⟩,
      by norm_num [deriveRow, optScale, optAdd, optSub]⟩

/- ## Aligner lemmas -/


/-- In a list that is pairwise nondecreasing in time, the last element has
the greatest time. -/
theorem pairwise_time_getLast_max {l : List Sample} {b : Sample}
    (hp : l.Pairwise (fun a b => a.time ≤ b.time))
    (hb : l.getLast? = some b) : ∀ x ∈ l, x.time ≤ b.time := by
  obtain ⟨ys, rfl⟩ := List.getLast?_eq_some_iff.1 hb
  rw [List.pairwise_append] at hp
  intro x hx
  rcases List.mem_append.1 hx with hx | hx
  · exact hp.2.2 x hx b (List.mem_singleton_self b)
  · rw [List.mem_singleton.1 hx]

/-- A backward as-of match fails exactly when every companion sample is
strictly after the reference time. -/
theorem asofBackward_none_iff (t : Int) (l : List Sample) :
    asofBackward t l = none ↔ ∀ s ∈ l, t < s.time := by
  simp only [asofBackward, List.getLast?_eq_none_iff, List.filter_eq_nil_iff,
    decide_eq_true_eq]
  constructor <;> (intro h s hs; have := h s hs; omega)

/-- A successful backward as-of match against a time-sorted companion
frame returns a companion sample at or before the reference time, and the
latest such one. -/
theorem asofBackward_some (t : Int) {l : List Sample} {b : Sample}
    (hp : l.Pairwise (fun a b => a.time ≤ b.time))
    (hb : asofBackward t l = some b) :
    b ∈ l ∧ b.time ≤ t ∧ ∀ s ∈ l, s.time ≤ t → s.time ≤ b.time := by
  have hbf : b ∈ l.filter (fun s => decide (s.time ≤ t)) := by
    obtain ⟨ys, hys⟩ := List.getLast?_eq_some_iff.1 hb
    rw [hys]
    exact List.mem_append.2 (Or.inr (List.mem_singleton_self b))
  have hbl := List.mem_filter.1 hbf
  refine ⟨hbl.1, by simpa using hbl.2, ?_⟩
  intro s hs hst
  exact pairwise_time_getLast_max (hp.filter _) hb s
    (List.mem_filter.2 ⟨hs, by simpa using hst⟩)

/-- Membership is preserved by the `sort_values` model. -/
theorem mem_sortSamples {s : Sample} {l : List Sample} :
    s ∈ sortSamples l ↔ s ∈ l :=
  (List.perm_insertionSort _ l).mem_iff

/-- The `sort_values` model produces a time-sorted frame. -/
theorem sortSamples_pairwise (l : List Sample) :
    (sortSamples l).Pairwise (fun a b => a.time ≤ b.time) :=
  List.sorted_insertionSort _ l

/-- **C1** (amended).  For the two `merge_asof(..., direction='backward')`
calls inside `merge_data` (`aave_hl_dashboard.py:76-79`), every row's
companion value, when present, is the companion sample with the greatest
timestamp at or before the row's reference timestamp, and the companion
is absent exactly when the companion series has no sample at or before
the reference timestamp.  (The original claim additionally asserted this
for the Hyperliquid–Bitfinex combined merge; that merge uses
`direction='nearest'` and violates it — see the counterexample.) -/
theorem c1_mergeData_backward_match (hl : List HLRow)
    (usdc weth : List Sample) :
    ∀ r ∈ mergeData hl usdc weth,
      (∀ v, r.usdc_borrow_rate = some v →
        ∃ s ∈ usdc, s.value = v ∧ s.time ≤ r.time ∧
          ∀ s' ∈ usdc, s'.time ≤ r.time → s'.time ≤ s.time) ∧
      (r.usdc_borrow_rate = none ↔ ∀ s ∈ usdc, r.time < s.time) ∧
      (∀ v, r.weth_lend_rate = some v →
        ∃ s ∈ weth, s.value = v ∧ s.time ≤ r.time ∧
          ∀ s' ∈ weth, s'.time ≤ r.time → s'.time ≤ s.time) ∧
      (r.weth_lend_rate = none ↔ ∀ s ∈ weth, r.time < s.time) := by
  intro r hr
  simp only [mergeData, List.mem_map] at hr
  obtain ⟨h, -, rfl⟩ := hr
  have key : ∀ c : List Sample,
      (∀ v, (asofBackward h.time (sortSamples c)).map (·.value) = some v →
        ∃ s ∈ c, s.value = v ∧ s.time ≤ h.time ∧
          ∀ s' ∈ c, s'.time ≤ h.time → s'.time ≤ s.time) ∧
      ((asofBackward h.time (sortSamples c)).map (·.value) = none ↔
        ∀ s ∈ c, h.time < s.time) := by
    intro c
    constructor
    · intro v hv
      cases hm : asofBackward h.time (sortSamples c) with
      | none => rw [hm] at hv; exact absurd hv (by simp)
      | some b =>
        rw [hm] at hv
        obtain ⟨hbmem, hble, hbmax⟩ := asofBackward_some h.time
          (sortSamples_pairwise c) hm
        refine ⟨b, mem_sortSamples.1 hbmem, by simpa using hv, hble, ?_⟩
        intro s' hs' hs'le
        exact hbmax s' (mem_sortSamples.2 hs') hs'le
    · rw [Option.map_eq_none', asofBackward_none_iff]
      constructor
      · intro hh s hs
        exact hh s (mem_sortSamples.2 hs)
      · intro hh s hs
        exact hh s (mem_sortSamples.1 hs)
  exact ⟨(key usdc).1, (key usdc).2, (key weth).1, (key weth).2⟩

/-- Witness for C1's amended theorem: a Hyperliquid row at time 10 picks
the USDC sample at time 3 (the only one at or before 10) and no WETH
sample (the only one is at time 20). -/
theorem c1_witness :
    ((⟨10, some 1, some 2, some 5, none⟩ : ARow)
        ∈ mergeData [⟨10, some 1, some 2⟩] [⟨3, 5⟩] [⟨20, 7⟩]) ∧
    ((∀ v, (some (5:ℚ) : Option ℚ) = some v →
        ∃ s ∈ [(⟨3, 5⟩ : Sample)], s.value = v ∧ s.time ≤ 10 ∧
          ∀ s' ∈ [(⟨3, 5⟩ : Sample)], s'.time ≤ 10 → s'.time ≤ s.time) ∧
      ((some (5:ℚ) : Option ℚ) = none ↔
        ∀ s ∈ [(⟨3, 5⟩ : Sample)], (10:Int) < s.time) ∧
      (∀ v, (none : Option ℚ) = some v →
        ∃ s ∈ [(⟨20, 7⟩ : Sample)], s.value = v ∧ s.time ≤ 10 ∧
          ∀ s' ∈ [(⟨20, 7⟩ : Sample)], s'.time ≤ 10 → s'.time ≤ s.time) ∧
      ((none : Option ℚ) = none ↔
        ∀ s ∈ [(⟨20, 7⟩ : Sample)], (10:Int) < s.time)) :=
  ⟨by decide,
   c1_mergeData_backward_match [⟨10, some 1, some 2⟩] [⟨3, 5⟩] [⟨20, 7⟩]
     ⟨10, some 1, some 2, some 5, none⟩ (by decide)⟩

/-- Counterexample for C1 as stated: the combined Hyperliquid–Bitfinex
merge (`dashboard.py:164-166`, `direction='nearest'`) at reference time 0
with the single Bitfinex row at time 5 attaches that row — a companion
sample with timestamp strictly **after** the reference timestamp, which
the claim says never happens. -/
theorem c1_counterexample :
    combinedMerge [(0, some 10)] [⟨5, 3⟩]
      = [⟨0, some 10, some 5, some 3, some 7⟩] ∧ (0:Int) < 5 := by
  constructor
  · norm_num [combinedMerge, asofNearest, optSub]
  · norm_num

/- ## Bucketizer lemmas -/

/-- `floorHour` really floors: `floorHour t ≤ t < floorHour t + 60`. -/
theorem floorHour_bounds (t : Int) : floorHour t ≤ t ∧ t < floorHour t + 60 := by
  unfold floorHour
  have h1 := Int.emod_nonneg t (by norm_num : (60:Int) ≠ 0)
  have h2 := Int.emod_lt_of_pos t (by norm_num : (0:Int) < 60)
  omega

/-- In a list that is pairwise nondecreasing in time, the head has the
least time. -/
theorem pairwise_time_head_min {g : List Sample} {f : Sample}
    (hp : g.Pairwise (fun a b => a.time ≤ b.time))
    (hh : g.head? = some f) : ∀ x ∈ g, f.time ≤ x.time := by
  cases g with
  | nil => simp at hh
  | cons a t =>
    simp only [List.head?_cons, Option.some.injEq] at hh
    subst hh
    intro x hx
    rcases List.mem_cons.1 hx with rfl | hx
    · exact le_refl _
    · exact (List.pairwise_cons.1 hp).1 x hx

/-- The bucket keys are exactly the floored hours of the input samples. -/
theorem mem_bucketKeys {k : Int} {l : List Sample} :
    k ∈ bucketKeys l ↔ ∃ s ∈ l, floorHour s.time = k := by
  unfold bucketKeys
  rw [(List.perm_insertionSort _ _).mem_iff, List.mem_dedup]
  simp

/-- The bucket keys are distinct (pandas `groupby` emits one row per
distinct key). -/
theorem bucketKeys_nodup (l : List Sample) : (bucketKeys l).Nodup :=
  ((List.perm_insertionSort _ _).nodup_iff).2 (List.nodup_dedup _)

/-- Splitting a list's length by a Boolean predicate. -/
theorem length_filter_split {α : Type} (p : α → Bool) (l : List α) :
    l.length = (l.filter p).length + (l.filter (fun a => !p a)).length := by
  induction l with
  | nil => rfl
  | cons x xs ih =>
    cases hx : p x <;> simp [List.filter_cons, hx, ih] <;> omega

/-- Partitioning a list by a key function: the group sizes over any
duplicate-free list of keys covering the image sum to the list's
length. -/
theorem sum_filter_length_of_cover {α κ : Type} [DecidableEq κ] (f : α → κ) :
    ∀ (ks : List κ) (l : List α), ks.Nodup → (∀ x ∈ l, f x ∈ ks) →
      (ks.map (fun k => (l.filter (fun x => f x = k)).length)).sum = l.length := by
  intro ks
  induction ks with
  | nil =>
    intro l _ hcov
    cases l with
    | nil => rfl
    | cons x xs => exact absurd (hcov x (List.mem_cons_self x xs)) (by simp)
  | cons k ks ih =>
    intro l hnd hcov
    have hknotin : k ∉ ks := (List.nodup_cons.1 hnd).1
    have hcov' : ∀ x ∈ l.filter (fun x => !decide (f x = k)), f x ∈ ks := by
      intro x hx
      have hxl := List.mem_filter.1 hx
      rcases List.mem_cons.1 (hcov x hxl.1) with h | h
      · exact absurd h (by simpa using hxl.2)
      · exact h
    have heq : ∀ k' ∈ ks, (l.filter (fun x => f x = k')).length =
        ((l.filter (fun x => !decide (f x = k))).filter
          (fun x => f x = k')).length := by
      intro k' hk'
      have hne : k' ≠ k := fun h => hknotin (h ▸ hk')
      rw [List.filter_filter]
      congr 1
      apply List.filter_congr
      intro x _
      by_cases h : f x = k'
      · have : ¬ f x = k := fun hc => hne (h ▸ hc)
        simp [h, this, hne]
      · simp [h]
    calc ((k :: ks).map (fun k => (l.filter (fun x => f x = k)).length)).sum
        = (l.filter (fun x => f x = k)).length +
          (ks.map (fun k' => (l.filter (fun x => f x = k')).length)).sum := by
          simp
      _ = (l.filter (fun x => f x = k)).length +
          (ks.map (fun k' => ((l.filter (fun x => !decide (f x = k))).filter
            (fun x => f x = k')).length)).sum := by
          rw [List.map_congr_left heq]
      _ = (l.filter (fun x => f x = k)).length +
          (l.filter (fun x => !decide (f x = k))).length := by
          rw [ih _ (List.nodup_cons.1 hnd).2 hcov']
      _ = l.length := (length_filter_split (fun x => decide (f x = k)) l).symm

/-- **C7** (amended).  For a time-sorted input Series (which is what the
Bitfinex fetcher produces: it requests `sort=1` and appends pages in
cursor order), the grouping step keys each sample by its floored hour,
`first`/`last` are the minimum and maximum timestamp samples of the bucket,
`hour_start ≤ first_time ≤ last_time < hour_start + 1h` holds, and the
bucket sizes sum to the input length.  (The original claim asserted this
for *every* input Series; pandas `agg(['first','last'])` takes the
first/last row in source order, so an unsorted input violates it — see
the counterexample.) -/
theorem c7_bucketizer_on_sorted_input (l : List Sample)
    (hsorted : l.Pairwise (fun a b => a.time ≤ b.time)) :
    (∀ b ∈ bucketize l,
      (∃ s ∈ l, floorHour s.time = b.hour ∧ s.time = b.firstTime ∧
        s.value = b.firstValue ∧
        ∀ s' ∈ hourGroup l b.hour, b.firstTime ≤ s'.time) ∧
      (∃ s ∈ l, floorHour s.time = b.hour ∧ s.time = b.lastTime ∧
        s.value = b.lastValue ∧
        ∀ s' ∈ hourGroup l b.hour, s'.time ≤ b.lastTime) ∧
      b.hour ≤ b.firstTime ∧ b.firstTime ≤ b.lastTime ∧
      b.lastTime < b.hour + 60) ∧
    ((bucketKeys l).map (fun k => (hourGroup l k).length)).sum = l.length := by
  constructor
  · intro b hb
    rw [bucketize, List.mem_filterMap] at hb
    obtain ⟨k, hk, hmk⟩ := hb
    obtain ⟨s0, hs0l, hs0k⟩ := mem_bucketKeys.1 hk
    have hs0g : s0 ∈ hourGroup l k :=
      List.mem_filter.2 ⟨hs0l, by simpa using hs0k⟩
    have hne : hourGroup l k ≠ [] := List.ne_nil_of_mem hs0g
    have hgp : (hourGroup l k).Pairwise (fun a b => a.time ≤ b.time) :=
      hsorted.filter _
    simp only [mkBucket, List.head?_eq_head hne, List.getLast?_eq_getLast _ hne,
      Option.some.injEq] at hmk
    subst hmk
    have hheadg := List.head_mem hne
    have hlastg := List.getLast_mem hne
    have hheadl := List.mem_filter.1 hheadg
    have hlastl := List.mem_filter.1 hlastg
    have hheadk : floorHour ((hourGroup l k).head hne).time = k := by
      simpa using hheadl.2
    have hlastk : floorHour ((hourGroup l k).getLast hne).time = k := by
      simpa using hlastl.2
    have hmin := pairwise_time_head_min hgp (List.head?_eq_head hne)
    have hmax := pairwise_time_getLast_max hgp (List.getLast?_eq_getLast _ hne)
    refine ⟨⟨(hourGroup l k).head hne, hheadl.1, hheadk, rfl, rfl, hmin⟩,
      ⟨(hourGroup l k).getLast hne, hlastl.1, hlastk, rfl, rfl, hmax⟩,
      ?_, ?_, ?_⟩
    · have := (floorHour_bounds ((hourGroup l k).head hne).time).1
      simpa [hheadk] using this
    · exact hmin _ hlastg
    · have := (floorHour_bounds ((hourGroup l k).getLast hne).time).2
      simpa [hlastk] using this
  · exact sum_filter_length_of_cover (fun s : Sample => floorHour s.time)
      (bucketKeys l) l (bucketKeys_nodup l)
      (fun x hx => mem_bucketKeys.2 ⟨x, hx, rfl⟩)

/-- Counterexample for C7 as stated ("for every input Series"): on the
unsorted input `[(t=90,v=1), (t=70,v=2)]` both samples share hour bucket
60, and pandas `agg('first')`/`agg('last')` take the rows in source
order, so the produced bucket has `first_time = 90 > last_time = 70`:
`first` is not the minimum-timestamp sample and
`first_time ≤ last_time` fails. -/
theorem c7_counterexample :
    bucketize [⟨90, 1⟩, ⟨70, 2⟩] = [⟨60, 90, 1, 70, 2⟩] ∧
    ¬ ((90:Int) ≤ 70) := by
  constructor
  · decide
  · decide

/-- Witness for C7's amended theorem at a concrete sorted input. -/
theorem c7_witness :
    ([(⟨70, 2⟩ : Sample)]).Pairwise (fun a b => a.time ≤ b.time) ∧
    ((∀ b ∈ bucketize [(⟨70, 2⟩ : Sample)],
      (∃ s ∈ [(⟨70, 2⟩ : Sample)], floorHour s.time = b.hour ∧
        s.time = b.firstTime ∧ s.value = b.firstValue ∧
        ∀ s' ∈ hourGroup [(⟨70, 2⟩ : Sample)] b.hour, b.firstTime ≤ s'.time) ∧
      (∃ s ∈ [(⟨70, 2⟩ : Sample)], floorHour s.time = b.hour ∧
        s.time = b.lastTime ∧ s.value = b.lastValue ∧
        ∀ s' ∈ hourGroup [(⟨70, 2⟩ : Sample)] b.hour, s'.time ≤ b.lastTime) ∧
      b.hour ≤ b.firstTime ∧ b.firstTime ≤ b.lastTime ∧
      b.lastTime < b.hour + 60) ∧
    ((bucketKeys [(⟨70, 2⟩ : Sample)]).map
      (fun k => (hourGroup [(⟨70, 2⟩ : Sample)] k).length)).sum
      = ([(⟨70, 2⟩ : Sample)]).length) :=
  ⟨by decide, c7_bucketizer_on_sorted_input _ (by decide)⟩

/-- **C9**.  The unbounded `while True` pagination loop of
`fetch_bitfinex_funding` terminates whenever every successful response
is empty or contains only records with timestamps between the current
`start` cursor and the fixed `end` parameter: the cursor
`start_time = data[-1][0] + 1` then strictly increases and is bounded by
`end + 1`, so `(end + 1 - cursor).toNat` bounds the remaining
iterations; with more fuel than that the loop reaches one of its `break`
exits (`isSome` of the fuelled model). -/
theorem c9_bfx_pagination_terminates
    (page : Int → Int → Option (List (Int × ℚ))) (endT : Int)
    (H : ∀ cursor l, page cursor endT = some l →
        ∀ p ∈ l, cursor ≤ p.1 ∧ p.1 ≤ endT) :
    ∀ (fuel : Nat) (cursor : Int), (endT + 1 - cursor).toNat < fuel →
      (bfxLoop page endT fuel cursor).isSome := by
  intro fuel
  induction fuel with
  | zero => intro cursor h; omega
  | succ n ih =>
    intro cursor h
    simp only [bfxLoop]
    cases hp : page cursor endT with
    | none => simp
    | some data =>
      cases data with
      | nil => simp
      | cons d ds =>
        simp only [Option.isSome_map']
        apply ih
        have hlast := H cursor (d :: ds) hp (ds.getLastD d)
          (List.getLastD_mem_cons ds d)
        omega

/-- Witness for C9: a concrete paging oracle (one record per page up to
`end = 5`) satisfying the window hypothesis; the loop halts within the
stated fuel. -/
theorem c9_witness :
    ((5:Int) + 1 - 0).toNat < 8 ∧
    (bfxLoop (fun c e => if c ≤ e then some [(c, 1)] else some []) 5 8 0).isSome := by
  refine ⟨by norm_num, ?_⟩
  apply c9_bfx_pagination_terminates
    (fun c e => if c ≤ e then some [(c, 1)] else some []) 5
  · intro cursor l hl p hp
    by_cases hc : cursor ≤ 5
    · rw [if_pos hc] at hl
      obtain rfl := Option.some.inj hl
      rw [List.mem_singleton] at hp
      subst hp
      exact ⟨le_refl _, hc⟩
    · rw [if_neg hc] at hl
      obtain rfl := Option.some.inj hl
      exact absurd hp (List.not_mem_nil p)
  · norm_num

/- ## Fetcher lemmas -/

/-- Unfolding the first iteration of the Hyperliquid pagination loop when
the scan range is nonempty. -/
theorem hlWindows_cons {maxw start endT : Int} (hse : start < endT)
    (hmw : 0 < maxw) :
    hlWindows maxw start endT =
      (start, min (start + maxw) endT) ::
        hlWindowsGo maxw endT ((endT - start).toNat - 1)
          (min (start + maxw) endT) := by
  unfold hlWindows
  have h1 : (endT - start).toNat = ((endT - start).toNat - 1) + 1 := by omega
  rw [h1]
  simp only [hlWindowsGo]
  rw [if_pos ⟨hse, hmw⟩]
  simp

/-- **C3** (amended).  If the remote endpoint fails on the very first
request, the aave-variant Hyperliquid fetcher returns an empty Series
and the Bitfinex fetcher returns an empty grouped table, but
`dashboard.py`'s Hyperliquid fetcher does **not** return an empty Series:
its trailing `convert_to_gmt8(final_df, 'time')` indexes the `time`
column of the still-empty `pd.DataFrame()`, which has no columns, and
raises `KeyError`.  (The original claim asserted the empty-Series
behaviour for every fetcher variant.) -/
theorem c3_first_call_failure
    (resp : Int → Int → Option (List RawHL))
    (page : Int → Int → Option (List (Int × ℚ)))
    (maxw start endT bstart bendT : Int) (fuel : Nat)
    (hse : start < endT) (hmw : 0 < maxw) (hfuel : 0 < fuel)
    (hfail : resp start (min (start + maxw) endT) = none)
    (hpfail : page bstart bendT = none) :
    aaveHlFetch resp maxw start endT = [] ∧
    dashHlFetch resp maxw start endT = Except.error "KeyError: time" ∧
    bfxFetch page bendT fuel bstart = some [] := by
  refine ⟨?_, ?_, ?_⟩
  · rw [aaveHlFetch, hlFetchRows, hlWindows_cons hse hmw, hlBatches, hfail]
    rfl
  · rw [dashHlFetch, hlWindows_cons hse hmw, dashHlLoop, hfail]
    rfl
  · cases fuel with
    | zero => omega
    | succ n =>
      rw [bfxFetch, bfxLoop, hpfail]
      rfl

/-- Counterexample for C3 as stated: with every response failing,
`dashboard.py`'s `fetch_hyperliquid_funding` raises `KeyError` instead of
returning an empty Series. -/
theorem c3_counterexample :
    dashHlFetch (fun _ _ => none) 2 0 3 = Except.error "KeyError: time" := by
  rfl

/-- Witness for C3's amended theorem at concrete arguments and
always-failing oracles. -/
theorem c3_witness :
    (0:Int) < 3 ∧ (0:Int) < 2 ∧ (0:Nat) < 1 ∧
    (aaveHlFetch (fun _ _ => none) 2 0 3 = [] ∧
      dashHlFetch (fun _ _ => none) 2 0 3 = Except.error "KeyError: time" ∧
      bfxFetch (fun _ _ => none) 9 1 4 = some []) :=
  ⟨by norm_num, by norm_num, by norm_num,
    c3_first_call_failure (fun _ _ => none) (fun _ _ => none) 2 0 3 4 9 1
      (by norm_num) (by norm_num) (by norm_num) rfl rfl⟩

/-- Fuel beyond the iteration bound does not change the generated window
list. -/
theorem hlWindowsGo_congr (maxw endT : Int) :
    ∀ (n m : Nat) (cursor : Int),
      (endT - cursor).toNat ≤ n → (endT - cursor).toNat ≤ m →
      hlWindowsGo maxw endT n cursor = hlWindowsGo maxw endT m cursor := by
  intro n
  induction n with
  | zero =>
    intro m cursor hn _
    cases m with
    | zero => rfl
    | succ j =>
      simp only [hlWindowsGo]
      rw [if_neg]
      rintro ⟨hc, -⟩
      omega
  | succ k ih =>
    intro m cursor hn hm
    cases m with
    | zero =>
      simp only [hlWindowsGo]
      rw [if_neg]
      rintro ⟨hc, -⟩
      omega
    | succ j =>
      simp only [hlWindowsGo]
      by_cases hcond : cursor < endT ∧ 0 < maxw
      · rw [if_pos hcond, if_pos hcond]
        obtain ⟨hc, hmw⟩ := hcond
        congr 1
        exact ih j (min (cursor + maxw) endT) (by omega) (by omega)
      · rw [if_neg hcond, if_neg hcond]

/-- The fuelled window generator satisfies the defining equation of the
source `while current_start_time < end_time` loop, certifying that the
fuel argument is only a termination artifact. -/
theorem hlWindows_loop_eq (maxw cursor endT : Int) :
    hlWindows maxw cursor endT =
      if cursor < endT ∧ 0 < maxw then
        (cursor, min (cursor + maxw) endT) ::
          hlWindows maxw (min (cursor + maxw) endT) endT
      else [] := by
  by_cases hcond : cursor < endT ∧ 0 < maxw
  · rw [if_pos hcond, hlWindows_cons hcond.1 hcond.2]
    obtain ⟨hc, hmw⟩ := hcond
    congr 1
    unfold hlWindows
    exact hlWindowsGo_congr maxw endT _ _ (min (cursor + maxw) endT)
      (by omega) (le_refl _)
  · rw [if_neg hcond]
    unfold hlWindows
    cases hn : (endT - cursor).toNat with
    | zero => rfl
    | succ k =>
      simp only [hlWindowsGo]
      rw [if_neg hcond]

/-- The invariant of the Hyperliquid pagination loop: provided every
successful windowed response contains only samples inside its half-open
request window `[a, b)`, sorted ascending, the accumulated frame stays
inside `[cursor, endT)`, is nondecreasing in time, and successive batches
are strictly separated in time.  Induction on the iteration bound. -/
theorem hlFetch_invariant (resp : Int → Int → Option (List RawHL))
    (maxw endT : Int)
    (H : ∀ a b l, resp a b = some l →
        (∀ x ∈ l, a ≤ x.1 ∧ x.1 < b) ∧ l.Chain' (fun x y => x.1 ≤ y.1)) :
    ∀ (n : Nat) (cursor : Int), (endT - cursor).toNat ≤ n →
      (∀ r ∈ hlFetchRows resp (hlWindowsGo maxw endT n cursor),
          cursor ≤ r.time ∧ r.time < endT) ∧
      (hlFetchRows resp (hlWindowsGo maxw endT n cursor)).Chain'
        (fun a b => a.time ≤ b.time) ∧
      (hlBatches resp (hlWindowsGo maxw endT n cursor)).Chain'
        (fun b1 b2 => ∀ x ∈ b1, ∀ y ∈ b2, x.time < y.time) := by
  intro n
  induction n with
  | zero =>
    intro cursor _
    simp [hlWindowsGo, hlFetchRows, hlBatches]
  | succ k ih =>
    intro cursor hn
    simp only [hlWindowsGo]
    by_cases hcond : cursor < endT ∧ 0 < maxw
    case neg =>
      rw [if_neg hcond]
      simp [hlFetchRows, hlBatches]
    case pos =>
      obtain ⟨hc, hmw⟩ := hcond
      rw [if_pos ⟨hc, hmw⟩]
      have hcm : cursor < min (cursor + maxw) endT := by omega
      have hmend : min (cursor + maxw) endT ≤ endT := by omega
      cases hresp : resp cursor (min (cursor + maxw) endT) with
      | none => simp [hlFetchRows, hlBatches, hresp]
      | some batch =>
        obtain ⟨hbmem, hbchain⟩ := H cursor (min (cursor + maxw) endT) batch hresp
        obtain ⟨ihmem, ihchain, ihbatch⟩ :=
          ih (min (cursor + maxw) endT) (by omega)
        have hrows : hlFetchRows resp
            ((cursor, min (cursor + maxw) endT) :: hlWindowsGo maxw endT k
              (min (cursor + maxw) endT))
            = hlNormalize batch ++ hlFetchRows resp
              (hlWindowsGo maxw endT k (min (cursor + maxw) endT)) := by
          simp [hlFetchRows, hlBatches, hresp]
        have hnorm_mem : ∀ r ∈ hlNormalize batch,
            cursor ≤ r.time ∧ r.time < min (cursor + maxw) endT := by
          intro r hr
          simp only [hlNormalize, List.mem_map] at hr
          obtain ⟨raw, hrawmem, rfl⟩ := hr
          exact hbmem raw hrawmem
        have hnorm_chain : (hlNormalize batch).Chain'
            (fun a b => a.time ≤ b.time) := by
          rw [hlNormalize, List.chain'_map]
          exact hbchain
        refine ⟨?_, ?_, ?_⟩
        · intro r hr
          rw [hrows] at hr
          rcases List.mem_append.1 hr with h | h
          · have := hnorm_mem r h
            omega
          · have := ihmem r h
            omega
        · rw [hrows]
          apply List.Chain'.append hnorm_chain ihchain
          intro x hx y hy
          have hxm := (hnorm_mem x (List.mem_of_mem_getLast? hx)).2
          have hym := (ihmem y (List.mem_of_mem_head? hy)).1
          omega
        · simp only [hlBatches, hresp]
          apply List.Chain'.cons' ihbatch
          intro b2 hb2 x hx y hy
          have hyrows : y ∈ hlFetchRows resp
              (hlWindowsGo maxw endT k (min (cursor + maxw) endT)) :=
            List.mem_flatten_of_mem (List.mem_of_mem_head? hb2) hy
          have hym := (ihmem y hyrows).1
          have hxm := (hnorm_mem x hx).2
          omega

/-- **C5**.  For every `start < end` and window size `0 < maxw`, assuming
each successful windowed request returns only samples inside its
(half-open) requested window, sorted ascending, the concatenated Series
returned by `fetch_hyperliquid_funding` has every timestamp in
`[start, end)` and in nondecreasing order, and samples of adjacent
window batches are strictly separated in time, so no timestamp repeats
across a window boundary.  (Consecutive windows share only the endpoint
`b`, which belongs to the next window's half-open range, never the
previous one's.) -/
theorem c5_fetch_window_properties (resp : Int → Int → Option (List RawHL))
    (maxw start endT : Int) (hmw : 0 < maxw) (hse : start < endT)
    (H : ∀ a b l, resp a b = some l →
        (∀ x ∈ l, a ≤ x.1 ∧ x.1 < b) ∧ l.Chain' (fun x y => x.1 ≤ y.1)) :
    (∀ r ∈ aaveHlFetch resp maxw start endT,
        start ≤ r.time ∧ r.time < endT) ∧
    (aaveHlFetch resp maxw start endT).Chain' (fun a b => a.time ≤ b.time) ∧
    (hlBatches resp (hlWindows maxw start endT)).Chain'
      (fun b1 b2 => ∀ x ∈ b1, ∀ y ∈ b2, x.time < y.time) :=
  hlFetch_invariant resp maxw endT H (endT - start).toNat start (le_refl _)

/-- Witness for C5: a concrete compliant oracle answering one in-window
sample per request, on the scan `[0, 3)` with 2-hour windows. -/
theorem c5_witness :
    (0:Int) < 2 ∧ (0:Int) < 3 ∧
    ((∀ r ∈ aaveHlFetch
        (fun a b => if a < b then some [(a, some 1)] else some []) 2 0 3,
        (0:Int) ≤ r.time ∧ r.time < 3) ∧
      (aaveHlFetch
        (fun a b => if a < b then some [(a, some 1)] else some []) 2 0 3).Chain'
        (fun a b => a.time ≤ b.time) ∧
      (hlBatches (fun a b => if a < b then some [(a, some 1)] else some [])
        (hlWindows 2 0 3)).Chain'
        (fun b1 b2 => ∀ x ∈ b1, ∀ y ∈ b2, x.time < y.time)) := by
  refine ⟨by norm_num, by norm_num, ?_⟩
  apply c5_fetch_window_properties
    (fun a b => if a < b then some [(a, some 1)] else some []) 2 0 3
    (by norm_num) (by norm_num)
  intro a b l h
  by_cases hab : a < b
  · rw [if_pos hab] at h
    obtain rfl := Option.some.inj h
    constructor
    · intro x hx
      rw [List.mem_singleton] at hx
      subst hx
      exact ⟨le_refl _, hab⟩
    · simp
  · rw [if_neg hab] at h
    obtain rfl := Option.some.inj h
    simp
